import Mathlib

/-!
Verification of the `LinearARD` layer from `cplxmodule/relevance/real.py`
(a linear layer with automatic relevance determination).

Tensors are embedded as real-valued functions indexed by `Fin`: the weight
matrix `W` and the log-noise-variance `log_sigma2` are
`Fin out_features → Fin in_features → ℝ`, a (batched) input is
`Fin B → Fin in_features → ℝ`.  Machine floats are modelled by `ℝ`.
Randomness (`torch.randn_like`) is modelled by passing the sampled noise
tensor explicitly as an argument.  Autograd's `torch.no_grad()` scope is
modelled by the `Traced` wrapper, which tags a value with whether gradient
tracking was active when it was produced.  Python object identity (`id(...)`)
is modelled by abstract identity keys stored in the layer state.  Methods of
the Python class are embedded twice: once as pure value functions mirroring
the expressions in the source, and once in explicit state-passing style
(`...M` wrappers returning `result × state`) so that the absence of parameter
mutation is a statable property.
-/

namespace CplxModule

noncomputable section

/-- State of a `LinearARD` layer instance: the parameters `weight`, `bias`
(optional, as configured at construction), `log_sigma2`, the externally
toggled training flag, and the Python object-identity keys of the two
parameter tensors. -/
structure LinearARD (in_features out_features : ℕ) where
  weight : Fin out_features → Fin in_features → ℝ
  bias : Option (Fin out_features → ℝ)
  log_sigma2 : Fin out_features → Fin in_features → ℝ
  training : Bool
  weight_id : ℕ
  log_sigma2_id : ℕ

/-- Embedding of `torch.nn.functional.linear(input, weight, bias)`:
`input @ weight^T + bias`, with a missing bias contributing `0`. -/
def linear {B n m : ℕ} (input : Fin B → Fin n → ℝ)
    (weight : Fin m → Fin n → ℝ) (bias : Option (Fin m → ℝ)) :
    Fin B → Fin m → ℝ :=
  fun b j => (∑ k, input b k * weight j k) + (bias.getD (fun _ => 0)) j

/-- Embedding of the `log_alpha` property:
`self.log_sigma2 - 2 * torch.log(abs(self.weight) + 1e-12)`. -/
def log_alpha {i o : ℕ} (st : LinearARD i o) : Fin o → Fin i → ℝ :=
  fun r c => st.log_sigma2 r c - 2 * Real.log (|st.weight r c| + 1e-12)

/-- Embedding of `torch.sigmoid`: the logistic function. -/
def sigmoid (x : ℝ) : ℝ := 1 / (1 + Real.exp (-x))

/-- Embedding of `torch.nn.functional.softplus`, written in the numerically
stable form `log(1 + e^(-|x|)) + max(x, 0)` that the spec requires and that
the reference implementation computes. -/
def softplus (x : ℝ) : ℝ := Real.log (1 + Real.exp (-|x|)) + max x 0

/-- Embedding of the `penalty` property:
`n_log_alpha = -log_alpha; F.softplus(n_log_alpha)/2
 + 0.63576 * torch.sigmoid(1.48695 * n_log_alpha - 1.87320)`. -/
def penalty {i o : ℕ} (st : LinearARD i o) : Fin o → Fin i → ℝ :=
  fun r c =>
    let n_log_alpha := - log_alpha st r c
    softplus n_log_alpha / 2
      + 0.63576 * sigmoid (1.48695 * n_log_alpha - 1.87320)

/-- Embedding of the local `s2` of `forward`:
`F.linear(input * input, torch.exp(self.log_sigma2), None)`. -/
def s2 {i o B : ℕ} (st : LinearARD i o) (input : Fin B → Fin i → ℝ) :
    Fin B → Fin o → ℝ :=
  linear (fun b k => input b k * input b k)
    (fun r c => Real.exp (st.log_sigma2 r c)) none

/-- Embedding of `forward`: `mu = super().forward(input)`; in evaluation mode
return `mu`; in training mode return
`mu + torch.randn_like(s2) * torch.sqrt(s2 + 1e-20)`.  The standard-normal
sample drawn by `randn_like` is passed in as the `noise` argument, whose type
forces it to have the shape of `s2`. -/
def forward {i o B : ℕ} (st : LinearARD i o) (input : Fin B → Fin i → ℝ)
    (noise : Fin B → Fin o → ℝ) : Fin B → Fin o → ℝ :=
  let mu := linear input st.weight st.bias
  if st.training then
    fun b r => mu b r + noise b r * Real.sqrt (s2 st input b r + 1e-20)
  else mu

/-- A value tagged with whether gradient tracking was active while it was
computed (embedding of autograd's recording scope). -/
structure Traced (α : Type) where
  val : α
  gradTracked : Bool

/-- Embedding of a `with torch.no_grad():` block around the computation of a
value: the result carries no gradient tracking. -/
def no_grad {α : Type} (x : α) : Traced α := ⟨x, false⟩

/-- Embedding of `relevance`: inside `torch.no_grad()`, compute
`torch.le(self.log_alpha, threshold).to(self.log_alpha)`, i.e. the boolean
mask cast back to the floating dtype of `log_alpha` (1.0 where true). -/
def relevance {i o : ℕ} (st : LinearARD i o) (threshold : ℝ) :
    Traced (Fin o → Fin i → ℝ) :=
  no_grad (fun r c => if log_alpha st r c ≤ threshold then (1 : ℝ) else 0)

/-- Embedding of the class attribute `__sparsity_ignore__ = ("log_sigma2",)`:
the parameter names excluded from external sparsity aggregation. -/
def sparsity_ignore : List String := ["log_sigma2"]

/-- Embedding of `self.weight.numel()`. -/
def numel {i o : ℕ} (_st : LinearARD i o) : ℕ := o * i

/-- Embedding of `sparsity`: compute the relevance mask, sum to `n_relevant`,
and return `[(id(self.weight), self.weight.numel() - n_relevant)]`. -/
def sparsity {i o : ℕ} (st : LinearARD i o) (threshold : ℝ) :
    List (ℕ × ℝ) :=
  let rel := (relevance st threshold).val
  let n_relevant : ℝ := ∑ r, ∑ c, rel r c
  [(st.weight_id, ((numel st : ℕ) : ℝ) - n_relevant)]

/-- Embedding of `reset_variational_parameters`:
`self.log_sigma2.data.uniform_(-10, -10)` fills every entry with the single
point `-10` of the degenerate uniform range. -/
def reset_variational_parameters {i o : ℕ} (st : LinearARD i o) :
    LinearARD i o :=
  { st with log_sigma2 := fun _ _ => -10 }

/-- Embedding of `__init__(in_features, out_features, bias)`: the base linear
layer allocates `weight` (initial value `w0`) and, if configured, `bias`
(initial value `b0`); `torch.Tensor(*self.weight.shape)` allocates
`log_sigma2` uninitialized (arbitrary contents `ls0`, with `weight`'s shape
by construction); then `reset_variational_parameters` runs.  A fresh module
starts in training mode. -/
def init (in_features out_features : ℕ) (bias : Bool)
    (w0 : Fin out_features → Fin in_features → ℝ)
    (b0 : Fin out_features → ℝ)
    (ls0 : Fin out_features → Fin in_features → ℝ)
    (wid lsid : ℕ) : LinearARD in_features out_features :=
  reset_variational_parameters
    { weight := w0
      bias := if bias then some b0 else none
      log_sigma2 := ls0
      training := true
      weight_id := wid
      log_sigma2_id := lsid }

/-- An external optimizer step replacing the trainable parameter values (the
layer object and its identity keys are untouched). -/
def set_params {i o : ℕ} (st : LinearARD i o)
    (w : Fin o → Fin i → ℝ) (ls : Fin o → Fin i → ℝ) : LinearARD i o :=
  { st with weight := w, log_sigma2 := ls }

/-- State-passing embedding of the `log_alpha` property access: the method
body contains no assignment, so the state it leaves behind is the one it was
entered with. -/
def log_alphaM {i o : ℕ} (st : LinearARD i o) :
    (Fin o → Fin i → ℝ) × LinearARD i o :=
  (log_alpha st, st)

/-- State-passing embedding of the `penalty` property access. -/
def penaltyM {i o : ℕ} (st : LinearARD i o) :
    (Fin o → Fin i → ℝ) × LinearARD i o :=
  (penalty st, st)

/-- State-passing embedding of a `forward` call. -/
def forwardM {i o B : ℕ} (st : LinearARD i o) (input : Fin B → Fin i → ℝ)
    (noise : Fin B → Fin o → ℝ) :
    (Fin B → Fin o → ℝ) × LinearARD i o :=
  (forward st input noise, st)

/-- State-passing embedding of a `relevance` call. -/
def relevanceM {i o : ℕ} (st : LinearARD i o) (threshold : ℝ) :
    Traced (Fin o → Fin i → ℝ) × LinearARD i o :=
  (relevance st threshold, st)

/-- State-passing embedding of a `sparsity` call. -/
def sparsityM {i o : ℕ} (st : LinearARD i o) (threshold : ℝ) :
    List (ℕ × ℝ) × LinearARD i o :=
  (sparsity st threshold, st)

/-- A concrete layer in training mode, used by witnesses: one input and one
output feature, `W = 1`, `b = 0`, `log_sigma2 = -10`. -/
def trainSt : LinearARD 1 1 :=
  { weight := fun _ _ => 1
    bias := some (fun _ => 0)
    log_sigma2 := fun _ _ => -10
    training := true
    weight_id := 7
    log_sigma2_id := 8 }

/-- The same concrete layer switched to evaluation mode. -/
def evalSt : LinearARD 1 1 :=
  { trainSt with training := false }

/-- A concrete input batch (one row, one feature, value `2`). -/
def exInput : Fin 1 → Fin 1 → ℝ := fun _ _ => 2

/-- A concrete sampled noise tensor (value `3`). -/
def exNoise : Fin 1 → Fin 1 → ℝ := fun _ _ => 3

/-- A second, different concrete noise tensor (value `4`). -/
def exNoise2 : Fin 1 → Fin 1 → ℝ := fun _ _ => 4

/-- The stable softplus form computes the mathematical softplus
`log(1 + e^x)` exactly (over the reals, where no overflow exists). -/
lemma softplus_eq_log_one_add_exp (x : ℝ) :
    softplus x = Real.log (1 + Real.exp x) := by
  unfold softplus
  rcases le_total 0 x with h | h
  · rw [abs_of_nonneg h, max_eq_left h]
    calc Real.log (1 + Real.exp (-x)) + x
        = Real.log (1 + Real.exp (-x)) + Real.log (Real.exp x) := by
          rw [Real.log_exp]
      _ = Real.log ((1 + Real.exp (-x)) * Real.exp x) := by
          rw [Real.log_mul (by positivity) (Real.exp_ne_zero x)]
      _ = Real.log (1 + Real.exp x) := by
          rw [add_mul, one_mul, ← Real.exp_add, neg_add_cancel, Real.exp_zero,
            add_comm]
  · rw [abs_of_nonpos h, neg_neg, max_eq_right h, add_zero]

/-- C1: `log_alpha` is element-wise `log_sigma2 - 2 * log(|W| + 1e-12)`
(its shape is `W`'s by the index types), and it is recomputed from the
current parameters: after an external parameter update it is the same
formula over the new values, so no stale cache can be observed. -/
theorem log_alpha_fresh_formula {i o : ℕ} (st : LinearARD i o)
    (w ls : Fin o → Fin i → ℝ) (r : Fin o) (c : Fin i) :
    log_alpha st r c
        = st.log_sigma2 r c - 2 * Real.log (|st.weight r c| + 1e-12) ∧
    log_alpha (set_params st w ls) r c
        = ls r c - 2 * Real.log (|w r c| + 1e-12) :=
  ⟨rfl, rfl⟩

/-- C2: `penalty` is element-wise, with `u = -log_alpha`,
`softplus(u)/2 + k1 * sigmoid(k3*u - k2)` for `k1 = 0.63576`,
`k2 = 1.87320`, `k3 = 1.48695`, where the softplus is the stable form
`log(1 + e^(-|u|)) + max(u, 0)` (first conjunct, fully unfolded) and that
stable form agrees with the mathematical `log(1 + e^u)` (second conjunct). -/
theorem penalty_softplus_sigmoid {i o : ℕ} (st : LinearARD i o)
    (r : Fin o) (c : Fin i) :
    penalty st r c
        = (Real.log (1 + Real.exp (-|(- log_alpha st r c)|))
            + max (- log_alpha st r c) 0) / 2
          + 0.63576
            * (1 / (1 + Real.exp (-(1.48695 * (- log_alpha st r c)
                - 1.87320)))) ∧
    penalty st r c
        = Real.log (1 + Real.exp (- log_alpha st r c)) / 2
          + 0.63576
            * sigmoid (1.48695 * (- log_alpha st r c) - 1.87320) := by
  refine ⟨rfl, ?_⟩
  show softplus (- log_alpha st r c) / 2 + _ = _
  rw [softplus_eq_log_one_add_exp]

/-- C5: `relevance(threshold)` is computed with gradient tracking disabled,
has `W`'s shape (by the index types), and is element-wise the indicator
`1` where `log_alpha ≤ threshold` and `0` otherwise, carried in the same
numeric type `ℝ` as `log_alpha` (every entry is the real `1` or the real
`0`, not a boolean). -/
theorem relevance_mask_spec {i o : ℕ} (st : LinearARD i o) (t : ℝ)
    (r : Fin o) (c : Fin i) :
    (relevance st t).gradTracked = false ∧
    (relevance st t).val r c
        = (if log_alpha st r c ≤ t then (1 : ℝ) else 0) ∧
    ((relevance st t).val r c = (1 : ℝ) ∨ (relevance st t).val r c = (0 : ℝ)) := by
  refine ⟨rfl, rfl, ?_⟩
  by_cases h : log_alpha st r c ≤ t
  · left; simp [relevance, no_grad, h]
  · right; simp [relevance, no_grad, h]

/-- C10: the argument of the square root in the training-mode `forward`,
`s2 + 1e-20`, is at least `1e-20` and hence strictly positive, because each
entry of `s2` is a sum of products of squared inputs with the strictly
positive `exp(log_sigma2)`; the square root never sees a negative argument. -/
theorem sqrt_arg_positive {i o B : ℕ} (st : LinearARD i o)
    (input : Fin B → Fin i → ℝ) (b : Fin B) (r : Fin o) :
    (1e-20 : ℝ) ≤ s2 st input b r + 1e-20 ∧
    (0 : ℝ) < s2 st input b r + 1e-20 := by
  have h0 : (0 : ℝ) ≤ s2 st input b r := by
    unfold s2 linear
    simp only [Option.getD]
    have hs : (0 : ℝ) ≤ ∑ k, (input b k * input b k)
        * Real.exp (st.log_sigma2 r k) := by
      refine Finset.sum_nonneg fun k _ => ?_
      exact mul_nonneg (mul_self_nonneg _) (Real.exp_pos _).le
    simpa using hs
  have he : (0 : ℝ) < 1e-20 := by norm_num
  exact ⟨by linarith, by linarith⟩

/-- C3: in training mode, `forward` returns element-wise
`mu + noise * sqrt(s2 + 1e-20)` with `mu = input @ W^T + b` and
`s2 = input² @ exp(log_sigma2)^T` with no bias in that second pass; the
noise tensor has `s2`'s shape by its type. -/
theorem forward_train_formula {i o B : ℕ} (st : LinearARD i o)
    (input : Fin B → Fin i → ℝ) (noise : Fin B → Fin o → ℝ)
    (ht : st.training = true) (b : Fin B) (r : Fin o) :
    forward st input noise b r
      = ((∑ k, input b k * st.weight r k) + (st.bias.getD (fun _ => 0)) r)
        + noise b r
          * Real.sqrt ((∑ k, (input b k * input b k)
              * Real.exp (st.log_sigma2 r k)) + 1e-20) := by
  simp [forward, ht, linear, s2]

/-- Witness for C3 at the concrete training-mode layer `trainSt` with the
concrete input `exInput` and sampled noise `exNoise`. -/
theorem forward_train_formula_witness :
    trainSt.training = true ∧
    forward trainSt exInput exNoise 0 0
      = ((∑ k, exInput 0 k * trainSt.weight 0 k)
            + (trainSt.bias.getD (fun _ => 0)) 0)
        + exNoise 0 0
          * Real.sqrt ((∑ k, (exInput 0 k * exInput 0 k)
              * Real.exp (trainSt.log_sigma2 0 k)) + 1e-20) :=
  ⟨rfl, forward_train_formula trainSt exInput exNoise rfl 0 0⟩

/-- C4: in evaluation mode, `forward` equals the plain affine transform
`input @ W^T + b` (bias contributing only if configured), and it is
independent of the sampled noise, hence deterministic: identical input and
parameters give identical output on repeated calls. -/
theorem forward_eval_deterministic {i o B : ℕ} (st : LinearARD i o)
    (input : Fin B → Fin i → ℝ) (noise noise' : Fin B → Fin o → ℝ)
    (he : st.training = false) (b : Fin B) (r : Fin o) :
    forward st input noise b r
        = (∑ k, input b k * st.weight r k) + (st.bias.getD (fun _ => 0)) r ∧
    forward st input noise = forward st input noise' := by
  constructor
  · simp [forward, he, linear]
  · simp [forward, he]

/-- Witness for C4 at the concrete evaluation-mode layer `evalSt` with two
different noise tensors. -/
theorem forward_eval_deterministic_witness :
    evalSt.training = false ∧
    (forward evalSt exInput exNoise 0 0
        = (∑ k, exInput 0 k * evalSt.weight 0 k)
            + (evalSt.bias.getD (fun _ => 0)) 0 ∧
     forward evalSt exInput exNoise = forward evalSt exInput exNoise2) :=
  ⟨rfl, forward_eval_deterministic evalSt exInput exNoise exNoise2 rfl 0 0⟩

/-- C6: `sparsity(threshold)` is exactly the one-element list pairing the
weight tensor's identity key with `numel(W)` minus the sum of the relevance
mask; the key list is `[weight_id]` for every threshold (so it is stable
across repeated calls, and no entry is keyed by `log_sigma2` — which is
moreover declared in the sparsity-ignore list, so external aggregation
skips it entirely). -/
theorem sparsity_count_and_key {i o : ℕ} (st : LinearARD i o) (t t' : ℝ) :
    sparsity st t
        = [(st.weight_id,
            ((numel st : ℕ) : ℝ) - ∑ r, ∑ c, (relevance st t).val r c)] ∧
    (sparsity st t).map Prod.fst = [st.weight_id] ∧
    (sparsity st t).map Prod.fst = (sparsity st t').map Prod.fst ∧
    "log_sigma2" ∈ sparsity_ignore :=
  ⟨rfl, rfl, rfl, List.Mem.head _⟩

/-- C7: the relevance mask is monotone in the threshold: a weight marked
relevant at `t1 < t2` is also marked relevant at `t2`. -/
theorem relevance_monotone {i o : ℕ} (st : LinearARD i o) (t1 t2 : ℝ)
    (h : t1 < t2) (r : Fin o) (c : Fin i)
    (h1 : (relevance st t1).val r c = 1) :
    (relevance st t2).val r c = 1 := by
  by_cases hle : log_alpha st r c ≤ t1
  · have h2 : log_alpha st r c ≤ t2 := hle.trans h.le
    simp [relevance, no_grad, h2]
  · simp [relevance, no_grad, hle] at h1

/-- Witness for C7 at the concrete layer `trainSt` with thresholds `0 < 1`:
the single weight is relevant at both. -/
theorem relevance_monotone_witness :
    (0 : ℝ) < 1 ∧ (relevance trainSt 0).val 0 0 = 1 ∧
    (relevance trainSt 1).val 0 0 = 1 := by
  have hlog : (0 : ℝ) ≤ Real.log (1 + 1e-12) :=
    Real.log_nonneg (by norm_num)
  have hla : log_alpha trainSt 0 0 ≤ 0 := by
    have hform : log_alpha trainSt 0 0 = -10 - 2 * Real.log (1 + 1e-12) := by
      simp [log_alpha, trainSt]
    rw [hform]; linarith
  have h1 : (relevance trainSt 0).val 0 0 = 1 := by
    simp [relevance, no_grad, hla]
  exact ⟨zero_lt_one, h1, relevance_monotone trainSt 0 1 zero_lt_one 0 0 h1⟩

/-- C8: construction fills every entry of `log_sigma2` with the constant
`-10.0` (a deterministic fill regardless of the uninitialized contents
`ls0`), keeps `W` and the configured bias as the base layer made them
(`log_sigma2` sharing `W`'s index shape `[out_features, in_features]` by
its type), and no operation of the component ever replaces `log_sigma2`
afterwards, so the shape equality persists. -/
theorem construction_spec (ifeat ofeat : ℕ) (hb : Bool)
    (w0 : Fin ofeat → Fin ifeat → ℝ) (b0 : Fin ofeat → ℝ)
    (ls0 : Fin ofeat → Fin ifeat → ℝ) (wid lsid : ℕ)
    (r : Fin ofeat) (c : Fin ifeat)
    {i o B : ℕ} (st : LinearARD i o) (input : Fin B → Fin i → ℝ)
    (noise : Fin B → Fin o → ℝ) (t : ℝ) :
    (init ifeat ofeat hb w0 b0 ls0 wid lsid).log_sigma2 r c = -10 ∧
    (init ifeat ofeat hb w0 b0 ls0 wid lsid).weight = w0 ∧
    (init ifeat ofeat hb w0 b0 ls0 wid lsid).bias
        = (if hb then some b0 else none) ∧
    (log_alphaM st).2.log_sigma2 = st.log_sigma2 ∧
    (penaltyM st).2.log_sigma2 = st.log_sigma2 ∧
    (forwardM st input noise).2.log_sigma2 = st.log_sigma2 ∧
    (relevanceM st t).2.log_sigma2 = st.log_sigma2 ∧
    (sparsityM st t).2.log_sigma2 = st.log_sigma2 :=
  ⟨rfl, rfl, rfl, rfl, rfl, rfl, rfl, rfl⟩

/-- C9: in the state-passing embedding, every operation (`forward`,
`log_alpha`, `penalty`, `relevance`, `sparsity`) returns the layer state
exactly as it received it: the component never mutates `W`, `b` or
`log_sigma2` after construction. -/
theorem no_param_mutation {i o B : ℕ} (st : LinearARD i o)
    (input : Fin B → Fin i → ℝ) (noise : Fin B → Fin o → ℝ) (t t' : ℝ) :
    (log_alphaM st).2 = st ∧ (penaltyM st).2 = st ∧
    (forwardM st input noise).2 = st ∧
    (relevanceM st t).2 = st ∧ (sparsityM st t').2 = st :=
  ⟨rfl, rfl, rfl, rfl, rfl⟩

end

end CplxModule
